import Mathlib

/-!
Verification of the pdf-table-extractor core against its specification.

Each Python source function relevant to a claim is shallowly embedded as an
executable Lean definition over exact rational coordinates (`ℚ` stands in for
Python floats; the programs only add, subtract, multiply, divide and compare).
Theorems then settle the specification claims against these embeddings.
-/

namespace PdfTables

/-- A bounding box `(x0, top, x1, bottom)` in page coordinates, origin top-left,
y increasing downward. -/
structure Box where
  x0 : ℚ
  top : ℚ
  x1 : ℚ
  bottom : ℚ
deriving Repr, DecidableEq

/-- Embedding of `calculate_iou` from `build_structure_map.py` (lines 11-30).
`x_left = max(a.x0, b.x0)`, `y_top = max(a.top, b.top)`,
`x_right = min(a.x1, b.x1)`, `y_bottom = min(a.bottom, b.bottom)`; if the
intersection rectangle is inverted the function returns `0.0` early, otherwise
it returns `intersection / (area_a + area_b - intersection)`.  Rational
division is total with `q / 0 = 0`; Python instead raises `ZeroDivisionError`
when the denominator is zero (identical degenerate boxes). -/
def calculate_iou (a b : Box) : ℚ :=
  if min a.x1 b.x1 < max a.x0 b.x0 ∨ min a.bottom b.bottom < max a.top b.top then 0
  else
    (min a.x1 b.x1 - max a.x0 b.x0) * (min a.bottom b.bottom - max a.top b.top) /
      ((a.x1 - a.x0) * (a.bottom - a.top) + (b.x1 - b.x0) * (b.bottom - b.top) -
        (min a.x1 b.x1 - max a.x0 b.x0) * (min a.bottom b.bottom - max a.top b.top))

/-- Two closed boxes are disjoint exactly when their x-intervals or their
y-intervals are disjoint. -/
def disjointBoxes (a b : Box) : Prop :=
  a.x1 < b.x0 ∨ b.x1 < a.x0 ∨ a.bottom < b.top ∨ b.bottom < a.top

instance (a b : Box) : Decidable (disjointBoxes a b) := by
  unfold disjointBoxes; infer_instance

theorem calculate_iou_comm (a b : Box) : calculate_iou a b = calculate_iou b a := by
  unfold calculate_iou
  simp only [max_comm a.x0 b.x0, max_comm a.top b.top, min_comm a.x1 b.x1,
    min_comm a.bottom b.bottom,
    add_comm ((a.x1 - a.x0) * (a.bottom - a.top)) ((b.x1 - b.x0) * (b.bottom - b.top))]

theorem calculate_iou_of_disjoint (a b : Box) (h : disjointBoxes a b) :
    calculate_iou a b = 0 := by
  unfold calculate_iou
  rw [if_pos]
  rcases h with h | h | h | h
  · exact Or.inl (lt_of_le_of_lt (min_le_left _ _) (lt_of_lt_of_le h (le_max_right _ _)))
  · exact Or.inl (lt_of_le_of_lt (min_le_right _ _) (lt_of_lt_of_le h (le_max_left _ _)))
  · exact Or.inr (lt_of_le_of_lt (min_le_left _ _) (lt_of_lt_of_le h (le_max_right _ _)))
  · exact Or.inr (lt_of_le_of_lt (min_le_right _ _) (lt_of_lt_of_le h (le_max_left _ _)))

theorem calculate_iou_self (a : Box) (hx : a.x0 < a.x1) (hy : a.top < a.bottom) :
    calculate_iou a a = 1 := by
  have hA : (0 : ℚ) < (a.x1 - a.x0) * (a.bottom - a.top) :=
    mul_pos (by linarith) (by linarith)
  unfold calculate_iou
  rw [if_neg]
  · simp only [min_self, max_self]
    rw [show (a.x1 - a.x0) * (a.bottom - a.top) + (a.x1 - a.x0) * (a.bottom - a.top) -
          (a.x1 - a.x0) * (a.bottom - a.top) = (a.x1 - a.x0) * (a.bottom - a.top) by ring]
    exact div_self (ne_of_gt hA)
  · simp only [min_self, max_self]
    push_neg
    constructor <;> linarith

/-- C5 counterexample: for the identical degenerate (zero-area) box
`(0, 0, 0, 0)`, the embedded `calculate_iou` yields `0`, not `1` (the Python
code raises `ZeroDivisionError` on this input), so the claim fails as stated
for all box pairs. -/
theorem calculate_iou_identical_degenerate_cex :
    calculate_iou ⟨0, 0, 0, 0⟩ ⟨0, 0, 0, 0⟩ = 0 ∧
      ¬ (∀ a : Box, calculate_iou a a = 1) := by
  have h0 : calculate_iou ⟨0, 0, 0, 0⟩ ⟨0, 0, 0, 0⟩ = 0 := by
    norm_num [calculate_iou]
  refine ⟨h0, fun h => ?_⟩
  have h1 := h ⟨0, 0, 0, 0⟩
  rw [h0] at h1
  norm_num at h1

/-- C5 (amended): `calculate_iou` is symmetric for all box pairs; it is `0`
for disjoint boxes; and it is `1` for identical boxes of positive area
(`x0 < x1` and `top < bottom`).  For identical zero-area boxes the code
divides by zero instead of returning `1`. -/
theorem calculate_iou_properties :
    (∀ a b : Box, calculate_iou a b = calculate_iou b a) ∧
    (∀ a b : Box, disjointBoxes a b → calculate_iou a b = 0) ∧
    (∀ a : Box, a.x0 < a.x1 → a.top < a.bottom → calculate_iou a a = 1) :=
  ⟨calculate_iou_comm, calculate_iou_of_disjoint, calculate_iou_self⟩

/-- Witness for C5's amended theorem at concrete boxes. -/
theorem calculate_iou_properties_witness :
    calculate_iou ⟨0, 0, 2, 2⟩ ⟨3, 3, 4, 4⟩ = 0 ∧
      calculate_iou ⟨0, 0, 2, 2⟩ ⟨0, 0, 2, 2⟩ = 1 :=
  ⟨calculate_iou_properties.2.1 ⟨0, 0, 2, 2⟩ ⟨3, 3, 4, 4⟩ (Or.inl (by norm_num)),
   calculate_iou_properties.2.2 ⟨0, 0, 2, 2⟩ (by norm_num) (by norm_num)⟩

/-! ### Page orientation (C10) -/

/-- Embedding of the orientation computed by `analyze_page_layout`
(`build_structure_map.py` line 38): `"portrait" if page.width <= page.height
else "landscape"`. -/
def analyze_orientation (width height : ℚ) : String :=
  if width ≤ height then "portrait" else "landscape"

/-- Embedding of the orientation derived by `extract_lattice_tables`
(`lattice_table.py` lines 70-72): `is_portrait = dimensions[0] < dimensions[1]
if len(dimensions) >= 2 else True`, then `'portrait' if is_portrait else
'landscape'`. -/
def stitcher_orientation (dimensions : List ℚ) : String :=
  if 2 ≤ dimensions.length then
    if dimensions.getD 0 0 < dimensions.getD 1 0 then "portrait" else "landscape"
  else "portrait"

/-- C10 counterexample: on a square page (width = height = 100) the builder
reports portrait (`<=` comparison) while the stitcher reports landscape
(strict `<` comparison), so the two do not agree there. -/
theorem orientation_square_cex :
    analyze_orientation 100 100 = "portrait" ∧
      stitcher_orientation [100, 100] = "landscape" ∧
      analyze_orientation 100 100 ≠ stitcher_orientation [100, 100] := by
  refine ⟨by decide, by decide, by decide⟩

/-- C10 (amended): the builder's orientation and the stitcher's orientation
agree on every page whose recorded width differs from its height; on square
pages the builder says portrait while the stitcher says landscape. -/
theorem orientation_agree_iff_not_square (w h : ℚ) (hne : w ≠ h) :
    analyze_orientation w h = stitcher_orientation [w, h] := by
  unfold analyze_orientation stitcher_orientation
  rcases lt_or_gt_of_ne hne with hlt | hgt
  · simp only [List.length_cons, List.length_nil, List.getD]
    rw [if_pos (by linarith), if_pos (by omega), if_pos (by simpa using hlt)]
  · simp only [List.length_cons, List.length_nil, List.getD]
    rw [if_neg (by simpa using not_le.mpr hgt), if_pos (by omega),
      if_neg (by simpa using not_lt.mpr (le_of_lt hgt))]

/-- Witness for C10's amended theorem at a concrete non-square page. -/
theorem orientation_agree_witness :
    analyze_orientation 100 200 = stitcher_orientation [100, 200] :=
  orientation_agree_iff_not_square 100 200 (by norm_num)

/-! ### Centered-text repair (C6), from `lattice_table.py` -/

/-- Python's `str.strip()`: drop leading and trailing whitespace characters. -/
def stripStr (s : String) : String :=
  String.mk
    (((s.data.dropWhile Char.isWhitespace).reverse.dropWhile Char.isWhitespace).reverse)

/-- Embedding of `is_empty_cell` (`lattice_table.py` lines 441-445): a cell is
empty when it is `None` or a string that strips to the empty string. -/
def is_empty_cell (cell : Option String) : Bool :=
  match cell with
  | none => true
  | some s => stripStr s == ""

/-- Embedding of `is_empty_column` (`lattice_table.py` lines 448-455): a column
is empty when no row has a non-empty cell at that index. -/
def is_empty_column (table : List (List (Option String))) (col_idx : Nat) : Bool :=
  table.all fun row => !(decide (col_idx < row.length)) || is_empty_cell (row.getD col_idx none)

/-- The maximal row length, `max(len(row) for row in table_data)`; folding
`max` from `0` agrees with Python's `max` on the non-empty tables the guard
admits. -/
def max_row_len (table : List (List (Option String))) : Nat :=
  table.foldl (fun acc row => max acc row.length) 0

/-- Embedding of the in-place while-loop over one row in
`fix_centered_text_issues` (`lattice_table.py` lines 481-497): at a window
`(empty, non-empty, empty)` the content moves into the left empty cell, the
middle is blanked (`None`) and the scan resumes three cells further; otherwise
it advances one cell.  Mutations never touch cells the scan still reads, so
the recursion reproduces the loop. -/
def fix_row : List (Option String) → List (Option String)
  | a :: b :: c :: rest =>
      if is_empty_cell a && !is_empty_cell b && is_empty_cell c then
        b :: none :: c :: fix_row rest
      else
        a :: fix_row (b :: c :: rest)
  | xs => xs

/-- Embedding of `remove_empty_columns` (`lattice_table.py` lines 509-524). -/
def remove_empty_columns (table : List (List (Option String))) (empty_cols : List Nat) :
    List (List (Option String)) :=
  if empty_cols.isEmpty then table
  else table.map fun row =>
    (List.range row.length).filterMap fun col_idx =>
      if col_idx ∈ empty_cols then none else some (row.getD col_idx none)

/-- Embedding of `fix_centered_text_issues` (`lattice_table.py` lines 458-506):
return the table unchanged when it is empty or when the extracted column count
is within 1 of the estimate; otherwise repair every row and drop the columns
left fully empty. -/
def fix_centered_text_issues (table_data : List (List (Option String)))
    (estimated_cols : Nat) : List (List (Option String)) :=
  if table_data.isEmpty then table_data
  else
    let current_cols := max_row_len table_data
    if ((current_cols : ℤ) - (estimated_cols : ℤ)).natAbs ≤ 1 then table_data
    else
      let processed_table := table_data.map fix_row
      let empty_cols := (List.range current_cols).filter fun col_idx =>
        is_empty_column processed_table col_idx
      remove_empty_columns processed_table empty_cols

/-- C6: centered-text repair leaves the table untouched whenever the extracted
column count is within 1 of the estimated column count (so it runs only on a
deviation greater than 1), and on the single-row grid `[["", "X", "", "Y"]]`
with estimated columns 2 it moves each centered run left, blanks the middle
and drops the fully empty columns, returning `[["X", "Y"]]`. -/
theorem fix_centered_text_spec :
    (∀ (t : List (List (Option String))) (est : Nat),
        ((max_row_len t : ℤ) - (est : ℤ)).natAbs ≤ 1 →
          fix_centered_text_issues t est = t) ∧
    fix_centered_text_issues [[some "", some "X", some "", some "Y"]] 2 =
      [[some "X", some "Y"]] := by
  constructor
  · intro t est h
    unfold fix_centered_text_issues
    split
    · rfl
    · rw [if_pos h]
  · decide

/-- Witness for C6's guard conjunct at a concrete table. -/
theorem fix_centered_text_spec_witness :
    fix_centered_text_issues [[some "A", some "B"]] 2 = [[some "A", some "B"]] :=
  fix_centered_text_spec.1 [[some "A", some "B"]] 2 (by decide)

/-! ### Lattice closed-cell search (C3), from `lattice_table_detector.py` -/

/-- A line-segment record as the detector reads it: the fields `x0`, `top`,
`x1`, `bottom` (the code's `v.get('bottom', v['top'])` default is the `bottom`
field itself here; malformed records are out of scope for these claims). -/
structure Seg where
  x0 : ℚ
  top : ℚ
  x1 : ℚ
  bottom : ℚ
deriving Repr, DecidableEq

/-- Python's `sorted(set(xs))`: the distinct values in ascending order. -/
def sortedUnique (xs : List ℚ) : List ℚ :=
  List.insertionSort (· ≤ ·) xs.dedup

/-- The adjacent pairs `(xs[i], xs[i+1])` for `i in range(len(xs) - 1)`. -/
def adjPairs (xs : List ℚ) : List (ℚ × ℚ) := xs.zip xs.tail

/-- Top-edge check of `find_closed_cells` (`lattice_table_detector.py` lines
278-283): some horizontal segment lies exactly at `y1` and spans `[x1, x2]`. -/
def top_edge (h_lines : List Seg) (x1 y1 x2 : ℚ) : Bool :=
  h_lines.any fun h => h.top == y1 && decide (h.x0 ≤ x1) && decide (x2 ≤ h.x1)

/-- Bottom-edge check (lines 285-290): some horizontal segment lies exactly at
`y2` and spans `[x1, x2]`. -/
def bottom_edge (h_lines : List Seg) (x1 x2 y2 : ℚ) : Bool :=
  h_lines.any fun h => h.top == y2 && decide (h.x0 ≤ x1) && decide (x2 ≤ h.x1)

/-- Left-edge check (lines 292-297): some vertical segment lies exactly at
`x1` and spans `[y1, y2]`. -/
def left_edge (v_lines : List Seg) (x1 y1 y2 : ℚ) : Bool :=
  v_lines.any fun v => v.x0 == x1 && decide (v.top ≤ y1) && decide (y2 ≤ v.bottom)

/-- Right-edge check (lines 299-304): some vertical segment lies exactly at
`x2` and spans `[y1, y2]`. -/
def right_edge (v_lines : List Seg) (x2 y1 y2 : ℚ) : Bool :=
  v_lines.any fun v => v.x0 == x2 && decide (v.top ≤ y1) && decide (y2 ≤ v.bottom)

/-- `sum([top_edge, bottom_edge, left_edge, right_edge])` (line 307). -/
def edges_count (h_lines v_lines : List Seg) (x1 y1 x2 y2 : ℚ) : Nat :=
  (top_edge h_lines x1 y1 x2).toNat + (bottom_edge h_lines x1 x2 y2).toNat +
    (left_edge v_lines x1 y1 y2).toNat + (right_edge v_lines x2 y1 y2).toNat

/-- Embedding of `find_closed_cells` (`lattice_table_detector.py` lines
244-311): sort the distinct intersection x- and y-coordinates, then for every
adjacent coordinate rectangle skip it when its width or height is below 1 and
emit it as a cell when at least 3 of its 4 edges are exactly covered. -/
def find_closed_cells (h_lines v_lines : List Seg) (intersections : List (ℚ × ℚ)) :
    List ((ℚ × ℚ) × (ℚ × ℚ)) :=
  let sorted_x := sortedUnique (intersections.map Prod.fst)
  let sorted_y := sortedUnique (intersections.map Prod.snd)
  (adjPairs sorted_x).flatMap fun p =>
    (adjPairs sorted_y).filterMap fun q =>
      if p.2 - p.1 < 1 ∨ q.2 - q.1 < 1 then none
      else if 3 ≤ edges_count h_lines v_lines p.1 q.1 p.2 q.2 then
        some ((p.1, q.1), (p.2, q.2))
      else none

/-- C3: every cell emitted by the closed-cell search has width and height at
least 1 unit and at least 3 of its 4 edges exactly covered end-to-end by a
line segment, where each edge check is exact coincidence (no tolerance) plus
end-to-end span, as the accompanying characterizations state. -/
theorem find_closed_cells_invariant (h_lines v_lines : List Seg)
    (intersections : List (ℚ × ℚ)) (c : (ℚ × ℚ) × (ℚ × ℚ))
    (hc : c ∈ find_closed_cells h_lines v_lines intersections) :
    1 ≤ c.2.1 - c.1.1 ∧ 1 ≤ c.2.2 - c.1.2 ∧
    3 ≤ edges_count h_lines v_lines c.1.1 c.1.2 c.2.1 c.2.2 ∧
    (top_edge h_lines c.1.1 c.1.2 c.2.1 = true ↔
      ∃ h ∈ h_lines, h.top = c.1.2 ∧ h.x0 ≤ c.1.1 ∧ c.2.1 ≤ h.x1) ∧
    (bottom_edge h_lines c.1.1 c.2.1 c.2.2 = true ↔
      ∃ h ∈ h_lines, h.top = c.2.2 ∧ h.x0 ≤ c.1.1 ∧ c.2.1 ≤ h.x1) ∧
    (left_edge v_lines c.1.1 c.1.2 c.2.2 = true ↔
      ∃ v ∈ v_lines, v.x0 = c.1.1 ∧ v.top ≤ c.1.2 ∧ c.2.2 ≤ v.bottom) ∧
    (right_edge v_lines c.2.1 c.1.2 c.2.2 = true ↔
      ∃ v ∈ v_lines, v.x0 = c.2.1 ∧ v.top ≤ c.1.2 ∧ c.2.2 ≤ v.bottom) := by
  have hchar :
      (top_edge h_lines c.1.1 c.1.2 c.2.1 = true ↔
        ∃ h ∈ h_lines, h.top = c.1.2 ∧ h.x0 ≤ c.1.1 ∧ c.2.1 ≤ h.x1) ∧
      (bottom_edge h_lines c.1.1 c.2.1 c.2.2 = true ↔
        ∃ h ∈ h_lines, h.top = c.2.2 ∧ h.x0 ≤ c.1.1 ∧ c.2.1 ≤ h.x1) ∧
      (left_edge v_lines c.1.1 c.1.2 c.2.2 = true ↔
        ∃ v ∈ v_lines, v.x0 = c.1.1 ∧ v.top ≤ c.1.2 ∧ c.2.2 ≤ v.bottom) ∧
      (right_edge v_lines c.2.1 c.1.2 c.2.2 = true ↔
        ∃ v ∈ v_lines, v.x0 = c.2.1 ∧ v.top ≤ c.1.2 ∧ c.2.2 ≤ v.bottom) := by
    refine ⟨?_, ?_, ?_, ?_⟩ <;>
      simp [top_edge, bottom_edge, left_edge, right_edge, List.any_eq_true,
        Bool.and_eq_true, decide_eq_true_eq, beq_iff_eq, and_assoc]
  unfold find_closed_cells at hc
  rw [List.mem_flatMap] at hc
  obtain ⟨p, -, hq⟩ := hc
  rw [List.mem_filterMap] at hq
  obtain ⟨q, -, hqeq⟩ := hq
  by_cases hsmall : p.2 - p.1 < 1 ∨ q.2 - q.1 < 1
  · rw [if_pos hsmall] at hqeq; exact absurd hqeq (by simp)
  · rw [if_neg hsmall] at hqeq
    by_cases hedge : 3 ≤ edges_count h_lines v_lines p.1 q.1 p.2 q.2
    · rw [if_pos hedge] at hqeq
      obtain ⟨hq1, hq2⟩ := Option.some.injEq _ _ ▸ hqeq
      push_neg at hsmall
      cases hqeq
      refine ⟨by simpa using hsmall.1, by simpa using hsmall.2, by simpa using hedge, hchar⟩
    · rw [if_neg hedge] at hqeq; exact absurd hqeq (by simp)

/-- Witness for C3 on a concrete 1×1 fully ruled grid. -/
theorem find_closed_cells_invariant_witness :
    ((0, 0), (2, 2)) ∈
      find_closed_cells [⟨0, 0, 2, 0⟩, ⟨0, 2, 2, 2⟩] [⟨0, 0, 0, 2⟩, ⟨2, 0, 2, 2⟩]
        [(0, 0), (2, 0), (0, 2), (2, 2)] ∧
    3 ≤ edges_count [⟨0, 0, 2, 0⟩, ⟨0, 2, 2, 2⟩] [⟨0, 0, 0, 2⟩, ⟨2, 0, 2, 2⟩] 0 0 2 2 := by
  have hmem : ((0, 0), (2, 2)) ∈
      find_closed_cells [⟨0, 0, 2, 0⟩, ⟨0, 2, 2, 2⟩] [⟨0, 0, 0, 2⟩, ⟨2, 0, 2, 2⟩]
        [(0, 0), (2, 0), (0, 2), (2, 2)] := by
    norm_num [find_closed_cells, sortedUnique, adjPairs, edges_count, top_edge,
      bottom_edge, left_edge, right_edge, List.dedup, List.insertionSort,
      List.orderedInsert, List.filterMap_cons, List.flatMap_cons]
  exact ⟨hmem,
    (find_closed_cells_invariant [⟨0, 0, 2, 0⟩, ⟨0, 2, 2, 2⟩] [⟨0, 0, 0, 2⟩, ⟨2, 0, 2, 2⟩]
      [(0, 0), (2, 0), (0, 2), (2, 2)] ((0, 0), (2, 2)) hmem).2.2.1⟩

/-! ### Page-level deduplication (C4), from `build_structure_map.py` -/

/-- A packaged geometry record as it is stored in the structure map:
`{x0, top, x1, bottom, geom_type}`. -/
structure GeomOut where
  x0 : ℚ
  top : ℚ
  x1 : ℚ
  bottom : ℚ
  geom_type : String
deriving Repr, DecidableEq

/-- A table element of the page layout: `{bbox, parsing_strategy, geometries}`
(the `type` key is always `"table"` and the `reason` string carries no logic). -/
structure TableElem where
  bbox : Box
  parsing_strategy : String
  geometries : List GeomOut
deriving Repr, DecidableEq

/-- A candidate returned by `find_text_alignment_tables`:
`{bbox, geometries}`. -/
structure TextCand where
  bbox : Box
  geometries : List GeomOut
deriving Repr, DecidableEq

/-- The table element built from a kept text-alignment candidate
(`build_structure_map.py` lines 214-220). -/
def mkTextTable (tc : TextCand) : TableElem :=
  { bbox := tc.bbox, parsing_strategy := "text_only", geometries := tc.geometries }

/-- Embedding of Step 4 of `analyze_page_layout` (`build_structure_map.py`
lines 202-220): start from the geometric tables; for each text-alignment
candidate, check its IoU against every geometric bbox (fixed before the loop)
and append it as a `text_only` table only when no IoU exceeds `0.1`. -/
def dedup_final_tables (geometric_tables : List TableElem)
    (text_table_bboxes : List TextCand) : List TableElem :=
  text_table_bboxes.foldl
    (fun final_tables tc =>
      if geometric_tables.any fun g => decide (1/10 < calculate_iou tc.bbox g.bbox) then
        final_tables
      else final_tables ++ [mkTextTable tc])
    geometric_tables

theorem mem_dedup_final_tables_aux (tcs : List TextCand) (geo : List TableElem)
    (acc : List TableElem) (e : TableElem)
    (he : e ∈ tcs.foldl
      (fun final_tables tc =>
        if geo.any fun g => decide (1/10 < calculate_iou tc.bbox g.bbox) then
          final_tables
        else final_tables ++ [mkTextTable tc]) acc) :
    e ∈ acc ∨ ∃ tc ∈ tcs, e = mkTextTable tc ∧
      ¬ ∃ g ∈ geo, 1/10 < calculate_iou tc.bbox g.bbox := by
  induction tcs generalizing acc with
  | nil => exact Or.inl he
  | cons tc0 rest ih =>
    rw [List.foldl_cons] at he
    by_cases hov : geo.any fun g => decide (1/10 < calculate_iou tc0.bbox g.bbox)
    · rw [if_pos hov] at he
      rcases ih acc he with h | ⟨tc, htc, rest'⟩
      · exact Or.inl h
      · exact Or.inr ⟨tc, List.mem_cons_of_mem _ htc, rest'⟩
    · rw [if_neg hov] at he
      rcases ih (acc ++ [mkTextTable tc0]) he with h | ⟨tc, htc, rest'⟩
      · rcases List.mem_append.mp h with h' | h'
        · exact Or.inl h'
        · refine Or.inr ⟨tc0, List.mem_cons_self _ _, List.mem_singleton.mp h', ?_⟩
          intro ⟨g, hg, hiou⟩
          exact hov (List.any_eq_true.mpr ⟨g, hg, decide_eq_true hiou⟩)
      · exact Or.inr ⟨tc, List.mem_cons_of_mem _ htc, rest'⟩

/-- C4: a text-alignment candidate whose IoU with some geometric candidate
exceeds 0.10 contributes no table element: assuming the geometric tables are
lattice/stream (as the geometric finders produce), no `text_only` element with
that candidate's bbox appears among the page's final table elements. -/
theorem dedup_discards_overlapping_text_candidate (geometric_tables : List TableElem)
    (text_cands : List TextCand) (tc : TextCand)
    (hover : ∃ g ∈ geometric_tables, 1/10 < calculate_iou tc.bbox g.bbox)
    (hgeo : ∀ g ∈ geometric_tables, g.parsing_strategy ≠ "text_only") :
    ∀ e ∈ dedup_final_tables geometric_tables text_cands,
      ¬ (e.parsing_strategy = "text_only" ∧ e.bbox = tc.bbox) := by
  intro e he ⟨hstrat, hbbox⟩
  rcases mem_dedup_final_tables_aux text_cands geometric_tables geometric_tables e he with
    h | ⟨tc', -, heq, hno⟩
  · exact hgeo e h hstrat
  · apply hno
    obtain ⟨g, hg, hiou⟩ := hover
    have hbb : tc'.bbox = tc.bbox := by rw [heq] at hbbox; exact hbbox
    exact ⟨g, hg, by rw [hbb]; exact hiou⟩

/-- Witness for C4: a fully overlapping text candidate is dropped, and the
surviving element (the geometric table itself) is not a `text_only` element
with the candidate's bbox. -/
theorem dedup_discards_overlapping_witness :
    ¬ ((TableElem.mk ⟨0, 0, 10, 10⟩ "lattice" []).parsing_strategy = "text_only" ∧
        (TableElem.mk ⟨0, 0, 10, 10⟩ "lattice" []).bbox = (⟨0, 0, 10, 10⟩ : Box)) := by
  have hmem : TableElem.mk ⟨0, 0, 10, 10⟩ "lattice" [] ∈
      dedup_final_tables [TableElem.mk ⟨0, 0, 10, 10⟩ "lattice" []]
        [TextCand.mk ⟨0, 0, 10, 10⟩ []] := by
    norm_num [dedup_final_tables, mkTextTable, calculate_iou]
  refine dedup_discards_overlapping_text_candidate
    [TableElem.mk ⟨0, 0, 10, 10⟩ "lattice" []] [TextCand.mk ⟨0, 0, 10, 10⟩ []]
    (TextCand.mk ⟨0, 0, 10, 10⟩ []) ⟨TableElem.mk ⟨0, 0, 10, 10⟩ "lattice" [], by simp, ?_⟩
    (by simp) _ hmem
  norm_num [calculate_iou]

/-! ### Stream standard rows and column boundaries (C1), from `stream_table.py` -/

/-- A word record `{text, x0, x1, top, bottom}` as the placers read it. -/
structure Word where
  text : String
  x0 : ℚ
  x1 : ℚ
  top : ℚ
  bottom : ℚ
deriving Repr, DecidableEq

/-- One iteration of the scan at `stream_table.py` lines 113-119: a strictly
longer row resets the running maximum and its row list; an equally long row is
appended; a shorter row is ignored. -/
def max_words_step (acc : Nat × List (List Word)) (words_in_row : List Word) :
    Nat × List (List Word) :=
  if acc.1 < words_in_row.length then (words_in_row.length, [words_in_row])
  else if words_in_row.length == acc.1 then (acc.1, acc.2 ++ [words_in_row])
  else acc

/-- Embedding of the scan computing `max_words_count` and `max_words_rows`
(`stream_table.py` lines 109-119), starting from `(0, [])`. -/
def max_words_scan (word_rows : List (List Word)) : Nat × List (List Word) :=
  word_rows.foldl max_words_step (0, [])

/-- `max_words_count` of a table region. -/
def max_words_count (word_rows : List (List Word)) : Nat :=
  (max_words_scan word_rows).1

/-- Embedding of `is_standard_row` (`stream_table.py` line 161): a row is
standard when its word count equals `max_words_count`. -/
def is_standard_row (word_rows : List (List Word)) (words_in_row : List Word) : Bool :=
  words_in_row.length == max_words_count word_rows

/-- Python `min` over a non-empty list (`0` stands in for the empty case the
code never reaches). -/
def pyMin (xs : List ℚ) : ℚ :=
  match xs with
  | [] => 0
  | x :: rest => rest.foldl min x

/-- Python `max` over a non-empty list. -/
def pyMax (xs : List ℚ) : ℚ :=
  match xs with
  | [] => 0
  | x :: rest => rest.foldl max x

/-- The `x0` values collected for ordinal position `col_idx`
(`stream_table.py` lines 129-137): in row order over `max_words_rows`, the
`x0` of the word at that position whenever the row has one. -/
def column_x0s (word_rows : List (List Word)) (col_idx : Nat) : List ℚ :=
  (max_words_scan word_rows).2.filterMap fun row => (row.get? col_idx).map Word.x0

/-- The `x1` values collected for ordinal position `col_idx` (same loop). -/
def column_x1s (word_rows : List (List Word)) (col_idx : Nat) : List ℚ :=
  (max_words_scan word_rows).2.filterMap fun row => (row.get? col_idx).map Word.x1

/-- Embedding of the column-boundary computation (`stream_table.py` lines
139-146): for each ordinal position below `max_words_count`, emit
`(min x0s, max x1s)` whenever both collections are non-empty. -/
def column_boundaries (word_rows : List (List Word)) : List (ℚ × ℚ) :=
  (List.range (max_words_count word_rows)).filterMap fun i =>
    if column_x0s word_rows i ≠ [] ∧ column_x1s word_rows i ≠ [] then
      some (pyMin (column_x0s word_rows i), pyMax (column_x1s word_rows i))
    else none

/-- Modelled from the spec: the modal (most frequently occurring) per-row word
count, `Counter(row lengths).most_common(1)`, first-encountered value winning
ties.  The source computes a maximum instead; this definition exists to compare
the two. -/
def spec_modal_count (word_rows : List (List Word)) : Nat :=
  let lens := word_rows.map List.length
  match lens with
  | [] => 0
  | l :: _ =>
      lens.foldl (fun best cand => if lens.count best < lens.count cand then cand else best) l

theorem foldl_max_init_le (rows : List (List Word)) :
    ∀ m : Nat, m ≤ rows.foldl (fun a r => max a r.length) m := by
  induction rows with
  | nil => intro m; simp
  | cons r rest ih =>
    intro m
    calc m ≤ max m r.length := le_max_left _ _
    _ ≤ rest.foldl (fun a r => max a r.length) (max m r.length) := ih _

theorem max_words_scan_aux (rows : List (List Word)) :
    ∀ (m : Nat) (mr : List (List Word)),
      rows.foldl max_words_step (m, mr) =
        (rows.foldl (fun a r => max a r.length) m,
         (if rows.foldl (fun a r => max a r.length) m = m then mr else []) ++
           rows.filter fun r => r.length == rows.foldl (fun a r => max a r.length) m) := by
  induction rows with
  | nil => intro m mr; simp
  | cons r rest ih =>
    intro m mr
    rw [List.foldl_cons, List.foldl_cons, List.filter_cons]
    by_cases h1 : m < r.length
    · have hmax : max m r.length = r.length := max_eq_right (le_of_lt h1)
      have hstep : max_words_step (m, mr) r = (r.length, [r]) := by
        unfold max_words_step; rw [if_pos h1]
      rw [hstep, ih r.length [r], hmax]
      have hge : r.length ≤ rest.foldl (fun a r => max a r.length) r.length :=
        foldl_max_init_le rest r.length
      have hne : rest.foldl (fun a r => max a r.length) r.length ≠ m := by omega
      rw [if_neg hne]
      by_cases h2 : r.length = rest.foldl (fun a r => max a r.length) r.length
      · rw [if_pos h2.symm, if_pos (show (r.length ==
            rest.foldl (fun a r => max a r.length) r.length) = true from beq_iff_eq.mpr h2)]
        simp
      · rw [if_neg (fun hx => h2 hx.symm), if_neg (show ¬(r.length ==
            rest.foldl (fun a r => max a r.length) r.length) = true by simpa using h2)]
    · by_cases h2 : r.length = m
      · have hmax : max m r.length = m := max_eq_left (le_of_eq h2)
        have hstep : max_words_step (m, mr) r = (m, mr ++ [r]) := by
          unfold max_words_step
          rw [if_neg h1, if_pos (beq_iff_eq.mpr h2)]
        rw [hstep, ih m (mr ++ [r]), hmax]
        by_cases h3 : rest.foldl (fun a r => max a r.length) m = m
        · rw [if_pos h3, if_pos h3, if_pos (show (r.length ==
              rest.foldl (fun a r => max a r.length) m) = true from
              beq_iff_eq.mpr (h2.trans h3.symm))]
          simp
        · rw [if_neg h3, if_neg h3, if_neg (show ¬(r.length ==
              rest.foldl (fun a r => max a r.length) m) = true by
              simp only [beq_iff_eq]; rw [h2]; exact fun hx => h3 hx.symm)]
      · have h1' : r.length < m := by omega
        have hmax : max m r.length = m := max_eq_left (le_of_lt h1')
        have hstep : max_words_step (m, mr) r = (m, mr) := by
          unfold max_words_step
          rw [if_neg h1, if_neg (by simpa using h2)]
        rw [hstep, ih m mr, hmax]
        have hge : m ≤ rest.foldl (fun a r => max a r.length) m := foldl_max_init_le rest m
        rw [if_neg (show ¬(r.length ==
            rest.foldl (fun a r => max a r.length) m) = true by
            simp only [beq_iff_eq]; omega)]

/-- The scan returns exactly the rows whose length is the final maximum. -/
theorem max_words_scan_eq (rows : List (List Word)) :
    max_words_scan rows =
      (rows.foldl (fun a r => max a r.length) 0,
       rows.filter fun r => r.length == max_words_count rows) := by
  unfold max_words_count max_words_scan
  rw [max_words_scan_aux rows 0 []]
  simp

theorem foldl_max_attained (rows : List (List Word)) :
    ∀ m : Nat, rows.foldl (fun a r => max a r.length) m = m ∨
      ∃ r ∈ rows, r.length = rows.foldl (fun a r => max a r.length) m := by
  induction rows with
  | nil => intro m; exact Or.inl rfl
  | cons r rest ih =>
    intro m
    rw [List.foldl_cons]
    rcases ih (max m r.length) with h | ⟨r', hr', hlen⟩
    · rcases max_choice m r.length with hm | hm
      · rw [hm] at h ⊢; exact Or.inl h
      · rw [hm] at h ⊢; exact Or.inr ⟨r, List.mem_cons_self _ _, h.symm⟩
    · exact Or.inr ⟨r', List.mem_cons_of_mem _ hr', hlen⟩

theorem foldl_min_le_rat (l : List ℚ) : ∀ x : ℚ, l.foldl min x ≤ x := by
  induction l with
  | nil => intro x; simp
  | cons a rest ih =>
    intro x
    rw [List.foldl_cons]
    exact le_trans (ih _) (min_le_left _ _)

theorem foldl_min_le_mem_rat (l : List ℚ) :
    ∀ (x a : ℚ), a ∈ l → l.foldl min x ≤ a := by
  induction l with
  | nil => intro x a ha; simp at ha
  | cons b rest ih =>
    intro x a ha
    rw [List.foldl_cons]
    rcases List.mem_cons.mp ha with h | h
    · exact le_trans (foldl_min_le_rat rest _) (h ▸ min_le_right _ _)
    · exact ih _ _ h

theorem foldl_min_mem_rat (l : List ℚ) :
    ∀ x : ℚ, l.foldl min x = x ∨ l.foldl min x ∈ l := by
  induction l with
  | nil => intro x; exact Or.inl rfl
  | cons a rest ih =>
    intro x
    rw [List.foldl_cons]
    rcases ih (min x a) with h | h
    · rcases min_choice x a with hm | hm
      · rw [hm] at h ⊢; exact Or.inl h
      · rw [hm] at h ⊢
        exact Or.inr (by rw [h]; exact List.mem_cons_self a rest)
    · exact Or.inr (List.mem_cons_of_mem _ h)

theorem foldl_max_le_rat (l : List ℚ) : ∀ x : ℚ, x ≤ l.foldl max x := by
  induction l with
  | nil => intro x; simp
  | cons a rest ih =>
    intro x
    rw [List.foldl_cons]
    exact le_trans (le_max_left _ _) (ih _)

theorem foldl_max_mem_le_rat (l : List ℚ) :
    ∀ (x a : ℚ), a ∈ l → a ≤ l.foldl max x := by
  induction l with
  | nil => intro x a ha; simp at ha
  | cons b rest ih =>
    intro x a ha
    rw [List.foldl_cons]
    rcases List.mem_cons.mp ha with h | h
    · exact le_trans (h ▸ le_max_right _ _) (foldl_max_le_rat rest _)
    · exact ih _ _ h

theorem foldl_max_mem_rat (l : List ℚ) :
    ∀ x : ℚ, l.foldl max x = x ∨ l.foldl max x ∈ l := by
  induction l with
  | nil => intro x; exact Or.inl rfl
  | cons a rest ih =>
    intro x
    rw [List.foldl_cons]
    rcases ih (max x a) with h | h
    · rcases max_choice x a with hm | hm
      · rw [hm] at h ⊢; exact Or.inl h
      · rw [hm] at h ⊢
        exact Or.inr (by rw [h]; exact List.mem_cons_self a rest)
    · exact Or.inr (List.mem_cons_of_mem _ h)

theorem pyMin_mem : ∀ (xs : List ℚ), xs ≠ [] → pyMin xs ∈ xs
  | [], hne => absurd rfl hne
  | x :: rest, _ => by
    have hval : pyMin (x :: rest) = rest.foldl min x := rfl
    rw [hval]
    rcases foldl_min_mem_rat rest x with h | h
    · rw [h]; exact List.mem_cons_self _ _
    · exact List.mem_cons_of_mem _ h

theorem pyMin_le : ∀ (xs : List ℚ) (a : ℚ), a ∈ xs → pyMin xs ≤ a
  | [], a, ha => by simp at ha
  | x :: rest, a, ha => by
    have hval : pyMin (x :: rest) = rest.foldl min x := rfl
    rw [hval]
    rcases List.mem_cons.mp ha with h | h
    · rw [h]; exact foldl_min_le_rat rest x
    · exact foldl_min_le_mem_rat rest x a h

theorem pyMax_mem : ∀ (xs : List ℚ), xs ≠ [] → pyMax xs ∈ xs
  | [], hne => absurd rfl hne
  | x :: rest, _ => by
    have hval : pyMax (x :: rest) = rest.foldl max x := rfl
    rw [hval]
    rcases foldl_max_mem_rat rest x with h | h
    · rw [h]; exact List.mem_cons_self _ _
    · exact List.mem_cons_of_mem _ h

theorem pyMax_ge : ∀ (xs : List ℚ) (a : ℚ), a ∈ xs → a ≤ pyMax xs
  | [], a, ha => by simp at ha
  | x :: rest, a, ha => by
    have hval : pyMax (x :: rest) = rest.foldl max x := rfl
    rw [hval]
    rcases List.mem_cons.mp ha with h | h
    · rw [h]; exact foldl_max_le_rat rest x
    · exact foldl_max_mem_le_rat rest x a h

theorem filterMap_eq_map_of_some {α β : Type} (f : α → Option β) (g : α → β) :
    ∀ l : List α, (∀ a ∈ l, f a = some (g a)) → l.filterMap f = l.map g := by
  intro l
  induction l with
  | nil => intro _; rfl
  | cons a rest ih =>
    intro h
    rw [List.filterMap_cons_some (h a (List.mem_cons_self _ _)), List.map_cons,
      ih fun b hb => h b (List.mem_cons_of_mem _ hb)]

/-- C1 counterexample: on word rows of sizes 2, 2, 3 the modal per-row word
count is 2, but the code classifies the 3-word row (the maximum) as standard,
so \"standard iff word count equals the modal count\" fails on the code. -/
theorem stream_standard_modal_cex :
    is_standard_row [[⟨"w", 0, 1, 0, 1⟩, ⟨"w", 0, 1, 0, 1⟩],
        [⟨"w", 0, 1, 0, 1⟩, ⟨"w", 0, 1, 0, 1⟩],
        [⟨"w", 0, 1, 0, 1⟩, ⟨"w", 0, 1, 0, 1⟩, ⟨"w", 0, 1, 0, 1⟩]]
      [⟨"w", 0, 1, 0, 1⟩, ⟨"w", 0, 1, 0, 1⟩, ⟨"w", 0, 1, 0, 1⟩] = true ∧
    spec_modal_count [[⟨"w", 0, 1, 0, 1⟩, ⟨"w", 0, 1, 0, 1⟩],
        [⟨"w", 0, 1, 0, 1⟩, ⟨"w", 0, 1, 0, 1⟩],
        [⟨"w", 0, 1, 0, 1⟩, ⟨"w", 0, 1, 0, 1⟩, ⟨"w", 0, 1, 0, 1⟩]] = 2 ∧
    ¬ (∀ rows : List (List Word), ∀ r ∈ rows,
        (is_standard_row rows r = true ↔ r.length = spec_modal_count rows)) := by
  refine ⟨by decide, by decide, fun h => ?_⟩
  have h3 := (h [[⟨"w", 0, 1, 0, 1⟩, ⟨"w", 0, 1, 0, 1⟩],
      [⟨"w", 0, 1, 0, 1⟩, ⟨"w", 0, 1, 0, 1⟩],
      [⟨"w", 0, 1, 0, 1⟩, ⟨"w", 0, 1, 0, 1⟩, ⟨"w", 0, 1, 0, 1⟩]]
    [⟨"w", 0, 1, 0, 1⟩, ⟨"w", 0, 1, 0, 1⟩, ⟨"w", 0, 1, 0, 1⟩] (by decide)).mp (by decide)
  revert h3
  decide

/-- C1 (amended): in the stream placer a row is standard iff its word count
equals the region's maximum (not modal) per-row word count; the scan's
`max_words_rows` are exactly those rows, and each ordinal position below the
maximum gets the boundary `(min x0, max x1)` computed exclusively over the
standard rows: every standard row's word at that position lies within the
boundary, and both ends are attained by a standard row's word. -/
theorem stream_standard_rows_boundaries (rows : List (List Word)) :
    ((max_words_scan rows).2 = rows.filter fun r => r.length == max_words_count rows) ∧
    (∀ r : List Word, is_standard_row rows r = true ↔ r.length = max_words_count rows) ∧
    (∀ i : Nat, i < max_words_count rows →
      ∃ lo hi, (column_boundaries rows)[i]? = some (lo, hi) ∧
        (∀ r ∈ rows, r.length = max_words_count rows →
          ∃ w, r.get? i = some w ∧ lo ≤ w.x0 ∧ w.x1 ≤ hi) ∧
        (∃ r ∈ rows, r.length = max_words_count rows ∧
          ∃ w, r.get? i = some w ∧ w.x0 = lo) ∧
        (∃ r ∈ rows, r.length = max_words_count rows ∧
          ∃ w, r.get? i = some w ∧ w.x1 = hi)) := by
  have hscan2 : (max_words_scan rows).2 =
      rows.filter fun r => r.length == max_words_count rows :=
    congrArg Prod.snd (max_words_scan_eq rows)
  have hfold : max_words_count rows = rows.foldl (fun a r => max a r.length) 0 := by
    unfold max_words_count
    rw [max_words_scan_eq]
  refine ⟨hscan2, fun r => by unfold is_standard_row; exact beq_iff_eq, ?_⟩
  intro i hi
  have hn0 : 0 < max_words_count rows := Nat.pos_of_ne_zero (by omega)
  have hatt : ∃ r ∈ rows, r.length = max_words_count rows := by
    rcases foldl_max_attained rows 0 with h | ⟨r, hr, hlen⟩
    · rw [← hfold] at h; omega
    · exact ⟨r, hr, by rw [hfold]; exact hlen⟩
  obtain ⟨r0, hr0mem, hr0len⟩ := hatt
  have hr0std : r0 ∈ (max_words_scan rows).2 := by
    rw [hscan2]
    exact List.mem_filter.mpr ⟨hr0mem, beq_iff_eq.mpr hr0len⟩
  have hx0ne : ∀ j, j < max_words_count rows → column_x0s rows j ≠ [] := by
    intro j hj hempty
    have hjr : j < r0.length := by rw [hr0len]; exact hj
    have hmm : (r0.get ⟨j, hjr⟩).x0 ∈ column_x0s rows j :=
      List.mem_filterMap.mpr ⟨r0, hr0std, by rw [List.get?_eq_get hjr]; rfl⟩
    rw [hempty] at hmm
    simp at hmm
  have hx1ne : ∀ j, j < max_words_count rows → column_x1s rows j ≠ [] := by
    intro j hj hempty
    have hjr : j < r0.length := by rw [hr0len]; exact hj
    have hmm : (r0.get ⟨j, hjr⟩).x1 ∈ column_x1s rows j :=
      List.mem_filterMap.mpr ⟨r0, hr0std, by rw [List.get?_eq_get hjr]; rfl⟩
    rw [hempty] at hmm
    simp at hmm
  have hfm : column_boundaries rows = (List.range (max_words_count rows)).map
      fun j => (pyMin (column_x0s rows j), pyMax (column_x1s rows j)) := by
    unfold column_boundaries
    apply filterMap_eq_map_of_some
    intro j hj
    rw [if_pos ⟨hx0ne j (List.mem_range.mp hj), hx1ne j (List.mem_range.mp hj)⟩]
  have hbound : (column_boundaries rows)[i]? =
      some (pyMin (column_x0s rows i), pyMax (column_x1s rows i)) := by
    rw [hfm, List.getElem?_map, List.getElem?_range hi]
    rfl
  refine ⟨_, _, hbound, ?_, ?_, ?_⟩
  · intro r hr hlen
    have hrstd : r ∈ (max_words_scan rows).2 := by
      rw [hscan2]
      exact List.mem_filter.mpr ⟨hr, beq_iff_eq.mpr hlen⟩
    have hir : i < r.length := by rw [hlen]; exact hi
    refine ⟨r.get ⟨i, hir⟩, List.get?_eq_get hir, ?_, ?_⟩
    · exact pyMin_le _ _
        (List.mem_filterMap.mpr ⟨r, hrstd, by rw [List.get?_eq_get hir]; rfl⟩)
    · exact pyMax_ge _ _
        (List.mem_filterMap.mpr ⟨r, hrstd, by rw [List.get?_eq_get hir]; rfl⟩)
  · obtain ⟨row, hrowstd, hsome⟩ := List.mem_filterMap.mp (pyMin_mem _ (hx0ne i hi))
    obtain ⟨w, hw, hwx0⟩ := Option.map_eq_some'.mp hsome
    rw [hscan2] at hrowstd
    have hrw := List.mem_filter.mp hrowstd
    exact ⟨row, hrw.1, beq_iff_eq.mp hrw.2, w, hw, hwx0⟩
  · obtain ⟨row, hrowstd, hsome⟩ := List.mem_filterMap.mp (pyMax_mem _ (hx1ne i hi))
    obtain ⟨w, hw, hwx1⟩ := Option.map_eq_some'.mp hsome
    rw [hscan2] at hrowstd
    have hrw := List.mem_filter.mp hrowstd
    exact ⟨row, hrw.1, beq_iff_eq.mp hrw.2, w, hw, hwx1⟩

/-- A concrete two-row stream region: one 2-word row, one 1-word row. -/
def exStreamRows : List (List Word) :=
  [[⟨"a", 0, 5, 0, 1⟩, ⟨"b", 10, 20, 0, 1⟩], [⟨"c", 2, 3, 2, 3⟩]]

/-- Witness for C1's amended theorem on a concrete region with a short row. -/
theorem stream_standard_rows_boundaries_witness :
    (is_standard_row exStreamRows [⟨"a", 0, 5, 0, 1⟩, ⟨"b", 10, 20, 0, 1⟩] = true ↔
      ([⟨"a", 0, 5, 0, 1⟩, ⟨"b", 10, 20, 0, 1⟩] : List Word).length =
        max_words_count exStreamRows) ∧
    ∃ lo hi,
      (column_boundaries exStreamRows)[0]? = some (lo, hi) ∧
      (∀ r ∈ exStreamRows, r.length = max_words_count exStreamRows →
          ∃ w, r.get? 0 = some w ∧ lo ≤ w.x0 ∧ w.x1 ≤ hi) ∧
      (∃ r ∈ exStreamRows, r.length = max_words_count exStreamRows ∧
          ∃ w, r.get? 0 = some w ∧ w.x0 = lo) ∧
      (∃ r ∈ exStreamRows, r.length = max_words_count exStreamRows ∧
          ∃ w, r.get? 0 = some w ∧ w.x1 = hi) :=
  ⟨(stream_standard_rows_boundaries exStreamRows).2.1 _,
   (stream_standard_rows_boundaries exStreamRows).2.2 0 (by decide)⟩

/-! ### Text-only placer word assignment (C8), from `text_only.py` -/

/-- The separator scan of `text_only.py` lines 130-134: starting after the
first separator, count consecutive separators not exceeding the word center,
stopping at the first one beyond it. -/
def count_seps_le (word_center : ℚ) : List ℚ → Nat
  | [] => 0
  | s :: rest => if word_center < s then 0 else count_seps_le word_center rest + 1

/-- `col_idx` for a word center: the loop runs over `column_separators[1:]`. -/
def compute_col_idx (column_separators : List ℚ) (word_center : ℚ) : Nat :=
  match column_separators with
  | [] => 0
  | _ :: rest => count_seps_le word_center rest

/-- Embedding of the word placement of `text_only.py` lines 124-141: compute
the word's center column, and when `col_idx < len(processed_row)` append the
word's text into that cell; otherwise the row is left unchanged — the source
has no `else` branch and no diagnostic on this path. -/
def place_word_text_only (column_separators : List ℚ) (processed_row : List String)
    (w : Word) : List String :=
  let word_center := (w.x0 + w.x1) / 2
  let col_idx := compute_col_idx column_separators word_center
  if col_idx < processed_row.length then
    processed_row.set col_idx
      (if processed_row.getD col_idx "" ≠ "" then
        processed_row.getD col_idx "" ++ " " ++ w.text
      else w.text)
  else processed_row

/-- One row of the text-only placer (`text_only.py` lines 119-143): start from
`[""] * (len(column_separators) - 1)` and place each word of the row in order. -/
def place_row_text_only (column_separators : List ℚ) (words : List Word) : List String :=
  words.foldl (place_word_text_only column_separators)
    (List.replicate (column_separators.length - 1) "")

/-- C8 (code bug): with separators `[0, 50, 100]` (two columns) the word "A"
at x-range `[110, 130]` has zero overlap with every column band, its center
falls beyond the last separator (`col_idx = 2`, out of range for a 2-cell
row), and the placer silently drops it: the row stays `["", ""]` and the
source emits no diagnostic on this path, contradicting the spec's requirement
that placers surface such words. -/
theorem text_only_placer_silent_drop :
    compute_col_idx [0, 50, 100] (((110 : ℚ) + 130) / 2) = 2 ∧
    place_row_text_only [0, 50, 100] [⟨"A", 110, 130, 0, 1⟩] = ["", ""] ∧
    (∀ b ∈ adjPairs [0, 50, 100], min (130 : ℚ) b.2 - max 110 b.1 ≤ 0) := by
  refine ⟨?_, ?_, ?_⟩ <;>
    norm_num [compute_col_idx, count_seps_le, place_row_text_only,
      place_word_text_only, adjPairs, List.replicate]

/-! ### Read-only discipline of the detectors (C9), from
`geometric_table_finder.py` -/

/-- A raw primitive record as pdfplumber hands it to the detectors: the
`geom_type` key may be absent (`none`).  `width`/`height` are derived from the
coordinates as in the records pdfplumber produces. -/
structure GeomRec where
  x0 : ℚ
  top : ℚ
  x1 : ℚ
  bottom : ℚ
  geom_type : Option String
deriving Repr, DecidableEq

/-- The orientation `find_geometric_tables` assigns to a line record
(`geometric_table_finder.py` lines 38-46): coincident coordinates first, then
the wider-than-tall comparison. -/
def line_orientation (l : GeomRec) : String :=
  if l.x0 = l.x1 then "line_vertical"
  else if l.top = l.bottom then "line_horizontal"
  else if l.bottom - l.top < l.x1 - l.x0 then "line_horizontal"
  else "line_vertical"

/-- Embedding of the loop body over `page.lines` (`geometric_table_finder.py`
lines 31-48): when the record has no `geom_type` (or `'line'`), the code
assigns `l['geom_type']` on the record itself — this function is the
post-state of that shared record. -/
def classify_line (l : GeomRec) : GeomRec :=
  if l.geom_type = none ∨ l.geom_type = some "line" then
    { l with geom_type := some (line_orientation l) }
  else l

/-- Embedding of the loop body over `page.rects` (`geometric_table_finder.py`
lines 50-60): every rect record gets `geom_type` assigned in place — thin
rects become lines, the rest become `'rect'`. -/
def classify_rect (r : GeomRec) : GeomRec :=
  if 5 < r.x1 - r.x0 ∧ r.bottom - r.top ≤ 1 then
    { r with geom_type := some "line_horizontal" }
  else if 5 < r.bottom - r.top ∧ r.x1 - r.x0 ≤ 1 then
    { r with geom_type := some "line_vertical" }
  else { r with geom_type := some "rect" }

/-- The post-state of the shared `page.lines`/`page.rects` records after the
classification loops of `find_geometric_tables` run. -/
def classify_all_geoms (lines rects : List GeomRec) : List GeomRec × List GeomRec :=
  (lines.map classify_line, rects.map classify_rect)

/-- C9 counterexample: a plain horizontal line record with no `geom_type`
comes out of the geometric finder's classification stage with
`geom_type = 'line_horizontal'` written into it — the shared input record is
mutated in place, not copied, so the read-only discipline fails on the code. -/
theorem detectors_mutate_shared_records_cex :
    classify_all_geoms [⟨0, 0, 10, 0, none⟩] [] ≠ ([⟨0, 0, 10, 0, none⟩], []) ∧
    classify_all_geoms [⟨0, 0, 10, 0, none⟩] [] =
      ([⟨0, 0, 10, 0, some "line_horizontal"⟩], []) := by
  constructor <;> decide

/-- C9 (amended): the geometric finder performs reclassification directly on
the shared records: an unclassified (or `'line'`) line record gets the
orientation rule's tag written into its `geom_type`, every rect record gets a
`geom_type` written, coordinates stay untouched — and in both cases a record
that lacked a `geom_type` is mutated (the post-state differs from the input).
The structure-map builder, by contrast, builds fresh element records. -/
theorem geometric_finder_reclassifies_in_place :
    (∀ l : GeomRec, l.geom_type = none ∨ l.geom_type = some "line" →
      (classify_line l).geom_type = some (line_orientation l) ∧
      (classify_line l).x0 = l.x0 ∧ (classify_line l).top = l.top ∧
      (classify_line l).x1 = l.x1 ∧ (classify_line l).bottom = l.bottom ∧
      (l.geom_type = none → classify_line l ≠ l)) ∧
    (∀ r : GeomRec, (classify_rect r).geom_type ≠ none ∧
      (r.geom_type = none → classify_rect r ≠ r)) := by
  constructor
  · intro l hl
    unfold classify_line
    rw [if_pos hl]
    refine ⟨rfl, rfl, rfl, rfl, rfl, fun hnone heq => ?_⟩
    have : (GeomRec.mk l.x0 l.top l.x1 l.bottom (some (line_orientation l))).geom_type =
        l.geom_type := congrArg GeomRec.geom_type heq
    rw [hnone] at this
    simp at this
  · intro r
    unfold classify_rect
    constructor
    · split_ifs <;> simp
    · intro hnone heq
      have hgt := congrArg GeomRec.geom_type heq
      rw [hnone] at hgt
      split_ifs at hgt

/-- Witness for C9's amended theorem at concrete records. -/
theorem geometric_finder_reclassifies_in_place_witness :
    classify_line ⟨0, 0, 10, 0, none⟩ ≠ ⟨0, 0, 10, 0, none⟩ ∧
    classify_rect ⟨0, 0, 10, 1, none⟩ ≠ ⟨0, 0, 10, 1, none⟩ :=
  ⟨(geometric_finder_reclassifies_in_place.1 ⟨0, 0, 10, 0, none⟩
      (Or.inl rfl)).2.2.2.2.2 rfl,
   (geometric_finder_reclassifies_in_place.2 ⟨0, 0, 10, 1, none⟩).2 rfl⟩

/-! ### Text-alignment band separators (C7), from
`text_alignment_table_finder.py` -/

/-- One iteration of the zero-run scan over the occupancy projection
(`text_alignment_table_finder.py` lines 93-101).  The state is
`(in_gap, gap_start, gaps)`; a gap is `(start, end, width)`.  Python keeps the
sentinel `-1` in `gap_start` while not in a gap and never reads it; `0` stands
in for it here. -/
def gap_scan_step (projection : List Nat) (st : Bool × Nat × List (Nat × Nat × Nat))
    (i : Nat) : Bool × Nat × List (Nat × Nat × Nat) :=
  if projection.getD i 1 = 0 ∧ st.1 = false then (true, i, st.2.2)
  else if ¬ projection.getD i 1 = 0 ∧ st.1 = true then
    (false, st.2.1, st.2.2 ++ [(st.2.1, i, i - st.2.1)])
  else st

/-- The scan state after the loop of `text_alignment_table_finder.py` lines
93-101: initialized from `projection[0]`, folded over indices
`1 .. table_width - 1`. -/
def gap_scan (projection : List Nat) : Bool × Nat × List (Nat × Nat × Nat) :=
  match projection with
  | [] => (false, 0, [])
  | p0 :: _ =>
      (List.range' 1 (projection.length - 1)).foldl (gap_scan_step projection)
        (p0 == 0, 0, [])

/-- Embedding of the gap computation (`text_alignment_table_finder.py` lines
92-102): run the scan and close a trailing gap at `table_width` when the scan
ends inside one. -/
def find_gaps (projection : List Nat) : List (Nat × Nat × Nat) :=
  match projection with
  | [] => []
  | _ :: _ =>
      if (gap_scan projection).1 then
        (gap_scan projection).2.2 ++
          [((gap_scan projection).2.1, projection.length,
            projection.length - (gap_scan projection).2.1)]
      else (gap_scan projection).2.2

/-- Invariant of the scan before processing index `bound`: every completed gap
is a zero-occupancy run ending at or before `bound` with width = end - start;
completed gaps are ordered (each ends no later than the next starts); and while
inside a gap, the projection is zero from `gap_start` up to `bound` and every
completed gap ends by `gap_start`. -/
def GapInv (projection : List Nat) (bound : Nat)
    (st : Bool × Nat × List (Nat × Nat × Nat)) : Prop :=
  (∀ g ∈ st.2.2, g.1 < g.2.1 ∧ g.2.1 ≤ bound ∧ g.2.2 = g.2.1 - g.1 ∧
      ∀ j, g.1 ≤ j → j < g.2.1 → projection.getD j 1 = 0) ∧
  st.2.2.Pairwise (fun a b => a.2.1 ≤ b.1) ∧
  (st.1 = true → st.2.1 < bound ∧
      (∀ j, st.2.1 ≤ j → j < bound → projection.getD j 1 = 0) ∧
      ∀ g ∈ st.2.2, g.2.1 ≤ st.2.1)

theorem gap_scan_step_inv (projection : List Nat) (i : Nat)
    (st : Bool × Nat × List (Nat × Nat × Nat)) (hinv : GapInv projection i st) :
    GapInv projection (i + 1) (gap_scan_step projection st i) := by
  obtain ⟨h1, h2, h3⟩ := hinv
  unfold gap_scan_step
  split_ifs with c1 c2
  · -- entering a gap at i
    refine ⟨fun g hg => ?_, h2, fun _ => ⟨by dsimp only; omega, ?_, fun g hg => ?_⟩⟩
    · obtain ⟨a, b, c, d⟩ := h1 g hg
      exact ⟨a, by omega, c, d⟩
    · dsimp only
      intro j hj1 hj2
      have : j = i := by omega
      rw [this]; exact c1.1
    · exact (h1 g hg).2.1
  · -- leaving a gap: append (gap_start, i, i - gap_start)
    obtain ⟨hlt, hzero, hend⟩ := h3 c2.2
    constructor
    · intro g hg
      rcases List.mem_append.mp hg with hg | hg
      · obtain ⟨a, b, c, d⟩ := h1 g hg
        exact ⟨a, by omega, c, d⟩
      · rw [List.mem_singleton.mp hg]
        exact ⟨hlt, by dsimp only; omega, rfl, fun j hj1 hj2 => hzero j hj1 hj2⟩
    · constructor
      · rw [List.pairwise_append]
        refine ⟨h2, List.pairwise_singleton _ _, fun a ha b hb => ?_⟩
        rw [List.mem_singleton.mp hb]
        exact hend a ha
      · intro hfalse
        simp at hfalse
  · -- state unchanged
    refine ⟨fun g hg => ?_, h2, fun hg => ?_⟩
    · obtain ⟨a, b, c, d⟩ := h1 g hg
      exact ⟨a, by omega, c, d⟩
    · obtain ⟨hlt, hzero, hend⟩ := h3 hg
      have hz : projection.getD i 1 = 0 := by
        rcases Classical.em (projection.getD i 1 = 0) with h | h
        · exact h
        · exact absurd ⟨h, hg⟩ c2
      refine ⟨by omega, fun j hj1 hj2 => ?_, hend⟩
      rcases Nat.lt_or_ge j i with hj | hj
      · exact hzero j hj1 hj
      · have : j = i := by omega
        rw [this]; exact hz

theorem gap_fold_inv (projection : List Nat) (s : Nat) :
    ∀ (n : Nat) (st : Bool × Nat × List (Nat × Nat × Nat)),
      GapInv projection s st →
        GapInv projection (s + n)
          ((List.range' s n).foldl (gap_scan_step projection) st) := by
  intro n
  induction n with
  | zero =>
    intro st h
    simp only [List.range'_zero, List.foldl_nil, Nat.add_zero]
    exact h
  | succ n ih =>
    intro st h
    rw [List.range'_concat, List.foldl_append, List.foldl_cons, List.foldl_nil,
      Nat.one_mul]
    have hstep := gap_scan_step_inv projection (s + n)
      ((List.range' s n).foldl (gap_scan_step projection) st) (ih st h)
    have heq : s + (n + 1) = (s + n) + 1 := by omega
    rw [heq]
    exact hstep

/-- Every gap the scan emits is a zero-occupancy run `[start, end)` inside the
projection, with `width = end - start > 0`, and the gaps are ordered (each ends
no later than the next starts). -/
theorem find_gaps_spec (projection : List Nat) :
    (∀ g ∈ find_gaps projection, g.1 < g.2.1 ∧ g.2.1 ≤ projection.length ∧
        g.2.2 = g.2.1 - g.1 ∧ ∀ j, g.1 ≤ j → j < g.2.1 → projection.getD j 1 = 0) ∧
    (find_gaps projection).Pairwise (fun a b => a.2.1 ≤ b.1) := by
  match projection with
  | [] => exact ⟨fun g hg => absurd hg (by simp [find_gaps]), by simp [find_gaps]⟩
  | p0 :: rest =>
    have hinit : GapInv (p0 :: rest) 1 ((p0 == 0 : Bool), 0, []) := by
      refine ⟨fun g hg => absurd hg (by simp), by simp,
        fun hz => ⟨by dsimp only; omega, ?_, by simp⟩⟩
      dsimp only
      intro j hj1 hj2
      have hj0 : j = 0 := by omega
      rw [hj0]
      have hp0 : p0 = 0 := by simpa using hz
      simpa using hp0
    have hfold := gap_fold_inv (p0 :: rest) 1 ((p0 :: rest).length - 1)
      ((p0 == 0 : Bool), 0, []) hinit
    have hbound : 1 + ((p0 :: rest).length - 1) = (p0 :: rest).length := by
      simp only [List.length_cons]
      omega
    rw [hbound] at hfold
    have hgs : gap_scan (p0 :: rest) =
        (List.range' 1 ((p0 :: rest).length - 1)).foldl (gap_scan_step (p0 :: rest))
          ((p0 == 0 : Bool), 0, []) := rfl
    rw [← hgs] at hfold
    obtain ⟨h1, h2, h3⟩ := hfold
    by_cases hg : (gap_scan (p0 :: rest)).1 = true
    · have hfg : find_gaps (p0 :: rest) =
          (gap_scan (p0 :: rest)).2.2 ++
            [((gap_scan (p0 :: rest)).2.1, (p0 :: rest).length,
              (p0 :: rest).length - (gap_scan (p0 :: rest)).2.1)] := by
        unfold find_gaps
        rw [if_pos hg]
      rw [hfg]
      obtain ⟨hlt, hzero, hend⟩ := h3 hg
      constructor
      · intro g hgmem
        rcases List.mem_append.mp hgmem with hm | hm
        · exact h1 g hm
        · rw [List.mem_singleton.mp hm]
          exact ⟨hlt, le_refl _, rfl, fun j hj1 hj2 => hzero j hj1 hj2⟩
      · rw [List.pairwise_append]
        refine ⟨h2, List.pairwise_singleton _ _, fun a ha b hb => ?_⟩
        rw [List.mem_singleton.mp hb]
        exact hend a ha
    · have hfg : find_gaps (p0 :: rest) = (gap_scan (p0 :: rest)).2.2 := by
        unfold find_gaps
        rw [if_neg hg]
      rw [hfg]
      exact ⟨h1, h2⟩

/-- The scan never emits the same gap twice. -/
theorem find_gaps_nodup (projection : List Nat) : (find_gaps projection).Nodup := by
  obtain ⟨h1, h2⟩ := find_gaps_spec projection
  refine List.Pairwise.imp_of_mem ?_ h2
  intro a b ha hb hab
  intro heq
  have hb1 := (h1 b hb).1
  rw [heq] at hab
  omega

/-- The virtual separator line emitted for a gap
(`text_alignment_table_finder.py` lines 116-125): a vertical line at the gap's
horizontal midpoint spanning the band's vertical extent. -/
def mk_virtual_line (group_bbox : Box) (gap : Nat × Nat × Nat) : GeomOut :=
  { x0 := group_bbox.x0 + (gap.1 : ℚ) + (gap.2.2 : ℚ) / 2,
    top := group_bbox.top,
    x1 := group_bbox.x0 + (gap.1 : ℚ) + (gap.2.2 : ℚ) / 2,
    bottom := group_bbox.bottom,
    geom_type := "virtual_line" }

/-- Embedding of the per-band separator selection and emission
(`text_alignment_table_finder.py` lines 77, 104-130): require modal word count
`≥ 2`; keep the gaps wider than 3 units, sort them by width descending
(stably, as Python's `sort(reverse=True)`), take the top `modal - 1`; reject
the band when fewer qualify, otherwise emit one virtual line per kept gap. -/
def process_band (group_bbox : Box) (projection : List Nat)
    (most_common_word_count : Nat) : Option TextCand :=
  if most_common_word_count < 2 then none
  else
    let gaps := find_gaps projection
    let num_expected_gaps := most_common_word_count - 1
    let wide_gaps := gaps.filter fun g => 3 < g.2.2
    let top_gaps :=
      (List.insertionSort (fun a b => b.2.2 ≤ a.2.2) wide_gaps).take num_expected_gaps
    if top_gaps.length < num_expected_gaps then none
    else some { bbox := group_bbox, geometries := top_gaps.map (mk_virtual_line group_bbox) }

/-- C7: an accepted band with modal word count `m ≥ 2` emits exactly `m - 1`
virtual vertical lines, each at the midpoint of a distinct zero-occupancy gap
of width > 3 spanning the band's vertical extent; a band with fewer than
`m - 1` qualifying gaps emits no table. -/
theorem text_alignment_band_spec (group_bbox : Box) (projection : List Nat) (m : Nat) :
    (∀ tc, process_band group_bbox projection m = some tc →
      2 ≤ m ∧ tc.bbox = group_bbox ∧ tc.geometries.length = m - 1 ∧
      ∃ sel : List (Nat × Nat × Nat), sel.Nodup ∧ sel.length = m - 1 ∧
        tc.geometries = sel.map (mk_virtual_line group_bbox) ∧
        ∀ g ∈ sel, g ∈ find_gaps projection ∧ 3 < g.2.2 ∧
          g.1 < g.2.1 ∧ g.2.1 ≤ projection.length ∧ g.2.2 = g.2.1 - g.1 ∧
          (∀ j, g.1 ≤ j → j < g.2.1 → projection.getD j 1 = 0) ∧
          mk_virtual_line group_bbox g =
            ⟨group_bbox.x0 + (g.1 : ℚ) + (g.2.2 : ℚ) / 2, group_bbox.top,
             group_bbox.x0 + (g.1 : ℚ) + (g.2.2 : ℚ) / 2, group_bbox.bottom,
             "virtual_line"⟩) ∧
    (((find_gaps projection).filter fun g => 3 < g.2.2).length < m - 1 →
      process_band group_bbox projection m = none) := by
  constructor
  · intro tc htc
    unfold process_band at htc
    by_cases hm : m < 2
    · rw [if_pos hm] at htc; exact absurd htc (by simp)
    · rw [if_neg hm] at htc
      by_cases hlen : ((List.insertionSort (fun a b => b.2.2 ≤ a.2.2)
          ((find_gaps projection).filter fun g => 3 < g.2.2)).take (m - 1)).length < m - 1
      · rw [if_pos hlen] at htc; exact absurd htc (by simp)
      · rw [if_neg hlen] at htc
        have htc' := (Option.some.injEq _ _).mp htc
        refine ⟨by omega, ?_, ?_, ?_⟩
        · rw [← htc']
        · rw [← htc']
          simp only [List.length_map]
          rw [List.length_take] at hlen ⊢
          omega
        · refine ⟨(List.insertionSort (fun a b => b.2.2 ≤ a.2.2)
            ((find_gaps projection).filter fun g => 3 < g.2.2)).take (m - 1), ?_,
            by rw [List.length_take] at hlen ⊢; omega,
            by rw [← htc'], ?_⟩
          · refine List.Sublist.nodup (List.take_sublist _ _) ?_
            refine (List.perm_insertionSort _ _).nodup_iff.mpr ?_
            exact List.Nodup.filter _ (find_gaps_nodup projection)
          · intro g hgmem
            have hsorted : g ∈ List.insertionSort (fun a b => b.2.2 ≤ a.2.2)
                ((find_gaps projection).filter fun g => 3 < g.2.2) :=
              (List.take_sublist _ _).subset hgmem
            have hwide : g ∈ (find_gaps projection).filter fun g => 3 < g.2.2 :=
              (List.perm_insertionSort _ _).subset hsorted
            have hgaps : g ∈ find_gaps projection := List.mem_of_mem_filter hwide
            have hw : 3 < g.2.2 := by
              have := List.of_mem_filter hwide
              simpa using this
            obtain ⟨a, b, c, d⟩ := (find_gaps_spec projection).1 g hgaps
            exact ⟨hgaps, hw, a, b, c, d, rfl⟩
  · intro hfew
    unfold process_band
    by_cases hm : m < 2
    · rw [if_pos hm]
    · rw [if_neg hm]
      rw [if_pos ?_]
      have hperm : (List.insertionSort (fun a b => b.2.2 ≤ a.2.2)
          ((find_gaps projection).filter fun g => 3 < g.2.2)).length =
          ((find_gaps projection).filter fun g => 3 < g.2.2).length :=
        (List.perm_insertionSort _ _).length_eq
      rw [List.length_take, hperm]
      omega

/-- The table emitted for the projection `[1,0,0,0,0,0,1,0,0,0,0,1]` with
modal count 3: separators at the midpoints of the gaps `(1,6,5)` and
`(7,11,4)`. -/
def exBandCand : TextCand :=
  ⟨⟨0, 0, 20, 10⟩, [mk_virtual_line ⟨0, 0, 20, 10⟩ (1, 6, 5),
    mk_virtual_line ⟨0, 0, 20, 10⟩ (7, 11, 4)]⟩

/-- Witness for C7 on a concrete band: an accepted band and a rejected band. -/
theorem text_alignment_band_spec_witness :
    (2 ≤ 3 ∧ exBandCand.bbox = ⟨0, 0, 20, 10⟩ ∧
      exBandCand.geometries.length = 3 - 1 ∧
      ∃ sel : List (Nat × Nat × Nat), sel.Nodup ∧ sel.length = 3 - 1 ∧
        exBandCand.geometries = sel.map (mk_virtual_line ⟨0, 0, 20, 10⟩) ∧
        ∀ g ∈ sel, g ∈ find_gaps [1, 0, 0, 0, 0, 0, 1, 0, 0, 0, 0, 1] ∧ 3 < g.2.2 ∧
          g.1 < g.2.1 ∧
          g.2.1 ≤ ([1, 0, 0, 0, 0, 0, 1, 0, 0, 0, 0, 1] : List Nat).length ∧
          g.2.2 = g.2.1 - g.1 ∧
          (∀ j, g.1 ≤ j → j < g.2.1 →
            ([1, 0, 0, 0, 0, 0, 1, 0, 0, 0, 0, 1] : List Nat).getD j 1 = 0) ∧
          mk_virtual_line ⟨0, 0, 20, 10⟩ g =
            ⟨(⟨0, 0, 20, 10⟩ : Box).x0 + (g.1 : ℚ) + (g.2.2 : ℚ) / 2,
             (⟨0, 0, 20, 10⟩ : Box).top,
             (⟨0, 0, 20, 10⟩ : Box).x0 + (g.1 : ℚ) + (g.2.2 : ℚ) / 2,
             (⟨0, 0, 20, 10⟩ : Box).bottom, "virtual_line"⟩) ∧
    process_band ⟨0, 0, 10, 10⟩ [1, 0, 0, 0, 0, 0, 1] 3 = none :=
  ⟨(text_alignment_band_spec ⟨0, 0, 20, 10⟩ [1, 0, 0, 0, 0, 0, 1, 0, 0, 0, 0, 1] 3).1
      exBandCand rfl,
   (text_alignment_band_spec ⟨0, 0, 10, 10⟩ [1, 0, 0, 0, 0, 0, 1] 3).2 (by decide)⟩

/-! ### Cross-page stitcher (C2), from `lattice_table.py` -/

/-- An extracted lattice table as `merge_cross_page_tables` sees it: page
number, per-page index, bbox `(x0, y0, x1, y1)`, row grid, column count,
page orientation, and the merge metadata the stitcher adds. -/
structure TableInfo where
  page_num : Nat
  table_index : Nat
  x0 : ℚ
  y0 : ℚ
  x1 : ℚ
  y1 : ℚ
  data : List (List String)
  max_cols : Nat
  orientation : String
  is_merged : Bool
  merged_pages : List Nat
deriving Repr, DecidableEq

/-- `table['id'] = (page_num, table_index)` (`lattice_table.py` lines 208-211). -/
def tableId (t : TableInfo) : Nat × Nat := (t.page_num, t.table_index)

/-- `tables_by_page[p]` (`lattice_table.py` lines 223-226). -/
def tablesOnPage (tables : List TableInfo) (p : Nat) : List TableInfo :=
  tables.filter fun t => t.page_num == p

/-- `bottom_tables_by_page[p] = max(tables, key=bbox[3])` (`lattice_table.py`
lines 239-245); Python's `max` keeps the first of equal maxima, so only a
strictly larger `y1` replaces the running best. -/
def bottomTableOfPage (tables : List TableInfo) (p : Nat) : Option TableInfo :=
  match tablesOnPage tables p with
  | [] => none
  | t :: rest => some (rest.foldl (fun acc x => if acc.y1 < x.y1 then x else acc) t)

/-- `top_tables_by_page[p] = min(tables, key=bbox[1])` (`lattice_table.py`
lines 247-253); only a strictly smaller `y0` replaces the running best. -/
def topTableOfPage (tables : List TableInfo) (p : Nat) : Option TableInfo :=
  match tablesOnPage tables p with
  | [] => none
  | t :: rest => some (rest.foldl (fun acc x => if x.y0 < acc.y0 then x else acc) t)

/-- The per-orientation global maximum `y1` (`lattice_table.py` lines 228-237
and 311-318): `max` over that orientation's tables, `0` when there are none. -/
def max_global_y1 (tables : List TableInfo) (orientation : String) : ℚ :=
  if orientation == "portrait" then
    pyMax ((tables.filter fun t => t.orientation == "portrait").map (·.y1))
  else
    pyMax ((tables.filter fun t => t.orientation == "landscape").map (·.y1))

/-- The per-orientation global minimum `y0` (same lines). -/
def min_global_y0 (tables : List TableInfo) (orientation : String) : ℚ :=
  if orientation == "portrait" then
    pyMin ((tables.filter fun t => t.orientation == "portrait").map (·.y0))
  else
    pyMin ((tables.filter fun t => t.orientation == "landscape").map (·.y0))

/-- The merge decision of `lattice_table.py` lines 320-342 (orientations
already known equal): column counts match, left and right edges within 10
units (strict, as in the source), and the bottom table's `y1` within 12 units
of the orientation's global maximum or the top table's `y0` within 2 units of
the orientation's global minimum. -/
def should_merge (tables : List TableInfo) (b t : TableInfo) : Prop :=
  b.max_cols = t.max_cols ∧
  |b.x0 - t.x0| < 10 ∧ |b.x1 - t.x1| < 10 ∧
  (max_global_y1 tables b.orientation - b.y1 ≤ 12 ∨
    t.y0 - min_global_y0 tables b.orientation ≤ 2)

instance (tables : List TableInfo) (b t : TableInfo) :
    Decidable (should_merge tables b t) := by
  unfold should_merge; infer_instance

/-- The merged table (`lattice_table.py` lines 347-365): a copy of the bottom
table with the top table's rows appended, the bbox keeping the first table's
top and taking the second table's bottom, marked merged over the two pages. -/
def mergePair (current_page : Nat) (b t : TableInfo) : TableInfo :=
  { b with
    data := b.data ++ t.data,
    y1 := t.y1,
    is_merged := true,
    merged_pages := [current_page, current_page + 1] }

/-- One iteration of the page-pair loop of `merge_cross_page_tables`
(`lattice_table.py` lines 280-374).  The state is
`(processed_table_ids, merged_tables)`. -/
def stitch_step (tables : List TableInfo) (st : List (Nat × Nat) × List TableInfo)
    (pp : Nat × Nat) : List (Nat × Nat) × List TableInfo :=
  if pp.2 ≠ pp.1 + 1 then st
  else if (tablesOnPage tables pp.1).isEmpty ∨ (tablesOnPage tables pp.2).isEmpty then st
  else
    match bottomTableOfPage tables pp.1 with
    | none => st
    | some current_bottom_table =>
      if tableId current_bottom_table ∈ st.1 then st
      else
        match topTableOfPage tables pp.2 with
        | none => st
        | some next_top_table =>
          if tableId next_top_table ∈ st.1 then st
          else if current_bottom_table.orientation ≠ next_top_table.orientation then st
          else if should_merge tables current_bottom_table next_top_table then
            (st.1 ++ [tableId current_bottom_table, tableId next_top_table],
             st.2 ++ [mergePair pp.1 current_bottom_table next_top_table])
          else if tableId current_bottom_table ∈ st.1 then st
          else (st.1 ++ [tableId current_bottom_table], st.2 ++ [current_bottom_table])

/-- Python's stable sort of the tables by `(page_num, bbox[1])`
(`lattice_table.py` line 214). -/
def sort_tables (tables : List TableInfo) : List TableInfo :=
  List.insertionSort
    (fun a b => a.page_num < b.page_num ∨ (a.page_num = b.page_num ∧ a.y0 ≤ b.y0)) tables

/-- `sorted(tables_by_page.keys())`: the distinct page numbers in ascending
order. -/
def page_nums (tables : List TableInfo) : List Nat :=
  List.insertionSort (· ≤ ·) (tables.map (·.page_num)).dedup

/-- Embedding of `merge_cross_page_tables` (`lattice_table.py` lines 184-390):
sort the (deep-copied) tables, walk consecutive page-number pairs with
`stitch_step`, then append the last page's bottom table and every remaining
unprocessed table. -/
def merge_cross_page_tables (all_tables : List TableInfo) : List TableInfo :=
  if all_tables.isEmpty then []
  else
    let sorted := sort_tables all_tables
    let pnums := page_nums sorted
    let st := (pnums.zip pnums.tail).foldl (stitch_step sorted) ([], [])
    let st2 :=
      match pnums.getLast? with
      | none => st
      | some last_page =>
        match bottomTableOfPage sorted last_page with
        | none => st
        | some last_bottom =>
          if tableId last_bottom ∈ st.1 then st
          else (st.1 ++ [tableId last_bottom], st.2 ++ [last_bottom])
    (sorted.foldl
      (fun acc t => if tableId t ∈ acc.1 then acc else (acc.1 ++ [tableId t], acc.2 ++ [t]))
      st2).2

theorem bottomTableOfPage_nonempty {tables : List TableInfo} {p : Nat} {b : TableInfo}
    (h : bottomTableOfPage tables p = some b) : (tablesOnPage tables p).isEmpty = false := by
  unfold bottomTableOfPage at h
  match hp : tablesOnPage tables p with
  | [] => rw [hp] at h; exact absurd h (by simp)
  | t :: rest => simp [hp]

theorem topTableOfPage_nonempty {tables : List TableInfo} {p : Nat} {t : TableInfo}
    (h : topTableOfPage tables p = some t) : (tablesOnPage tables p).isEmpty = false := by
  unfold topTableOfPage at h
  match hp : tablesOnPage tables p with
  | [] => rw [hp] at h; exact absurd h (by simp)
  | x :: rest => simp [hp]

/-- C2: with the bottom table of page `N` and the top table of page `N + 1`
both unconsumed, the stitcher merges them iff they share an orientation, share
a column count, have left and right edges aligned within 10 units, and the
bottom table's `y1` is within 12 units of the orientation's global maximum or
the top table's `y0` within 2 units of the orientation's global minimum; the
merged table's grid is the first table's rows then the second's, its bbox
keeps the first table's top and x-edges and takes the second table's bottom,
and a merge records both ids as processed; the processed set only grows across
the whole run, and a pair with either table already consumed does nothing, so
each table participates in at most one merge. -/
theorem merge_cross_page_spec :
    (∀ (tables : List TableInfo) (st : List (Nat × Nat) × List TableInfo) (N : Nat)
        (b t : TableInfo),
      bottomTableOfPage tables N = some b →
      topTableOfPage tables (N + 1) = some t →
      tableId b ∉ st.1 → tableId t ∉ st.1 →
      ((stitch_step tables st (N, N + 1) =
          (st.1 ++ [tableId b, tableId t], st.2 ++ [mergePair N b t]) ↔
        (b.orientation = t.orientation ∧ should_merge tables b t)) ∧
       (b.orientation = t.orientation → ¬ should_merge tables b t →
        stitch_step tables st (N, N + 1) = (st.1 ++ [tableId b], st.2 ++ [b])) ∧
       (b.orientation ≠ t.orientation → stitch_step tables st (N, N + 1) = st) ∧
       (mergePair N b t).data = b.data ++ t.data ∧
       (mergePair N b t).y0 = b.y0 ∧ (mergePair N b t).y1 = t.y1 ∧
       (mergePair N b t).x0 = b.x0 ∧ (mergePair N b t).x1 = b.x1 ∧
       (mergePair N b t).merged_pages = [N, N + 1] ∧
       (mergePair N b t).is_merged = true)) ∧
    (∀ (tables : List TableInfo) (pairs : List (Nat × Nat))
        (st : List (Nat × Nat) × List TableInfo) (x : Nat × Nat),
      x ∈ st.1 → x ∈ (pairs.foldl (stitch_step tables) st).1) ∧
    (∀ (tables : List TableInfo) (st : List (Nat × Nat) × List TableInfo) (N : Nat)
        (b t : TableInfo),
      bottomTableOfPage tables N = some b →
      topTableOfPage tables (N + 1) = some t →
      tableId b ∈ st.1 ∨ tableId t ∈ st.1 →
      stitch_step tables st (N, N + 1) = st) := by
  have hstep_mem : ∀ (tables : List TableInfo) (st : List (Nat × Nat) × List TableInfo)
      (pp : Nat × Nat) (x : Nat × Nat), x ∈ st.1 → x ∈ (stitch_step tables st pp).1 := by
    intro tables st pp x hx
    unfold stitch_step
    split_ifs with h1 h2
    · exact hx
    · exact hx
    · rcases hb : bottomTableOfPage tables pp.1 with _ | cb
      · simp only [hb]
        exact hx
      · simp only [hb]
        split_ifs with h3
        · exact hx
        · rcases ht : topTableOfPage tables pp.2 with _ | nt
          · simp only [ht]
            exact hx
          · simp only [ht]
            split_ifs with h4 h5 h6
            · exact hx
            · exact hx
            · exact List.mem_append.mpr (Or.inl hx)
            · exact List.mem_append.mpr (Or.inl hx)
  refine ⟨?_, ?_, ?_⟩
  · intro tables st N b t hb ht hbp htp
    have hne2 : ¬ ((tablesOnPage tables N).isEmpty ∨
        (tablesOnPage tables (N + 1)).isEmpty) := by
      rw [bottomTableOfPage_nonempty hb, topTableOfPage_nonempty ht]
      simp
    have hunfold : stitch_step tables st (N, N + 1) =
        (if b.orientation ≠ t.orientation then st
         else if should_merge tables b t then
           (st.1 ++ [tableId b, tableId t], st.2 ++ [mergePair N b t])
         else if tableId b ∈ st.1 then st
         else (st.1 ++ [tableId b], st.2 ++ [b])) := by
      unfold stitch_step
      dsimp only
      rw [if_neg (show ¬ (N + 1 ≠ N + 1) by simp), if_neg hne2]
      simp only [hb]
      rw [if_neg hbp]
      simp only [ht]
      rw [if_neg htp]
    refine ⟨?_, ?_, ?_, rfl, rfl, rfl, rfl, rfl, rfl, rfl⟩
    · constructor
      · intro heq
        rw [hunfold] at heq
        by_cases hor : b.orientation = t.orientation
        · rw [if_neg (by simpa using hor)] at heq
          by_cases hsm : should_merge tables b t
          · exact ⟨hor, hsm⟩
          · rw [if_neg hsm, if_neg hbp] at heq
            have hlen := congrArg (fun s => s.1.length) heq
            simp at hlen
        · rw [if_pos hor] at heq
          have hlen := congrArg (fun s => s.1.length) heq
          simp at hlen
      · intro hcond
        rw [hunfold, if_neg (by simpa using hcond.1), if_pos hcond.2]
    · intro hor hsm
      rw [hunfold, if_neg (by simpa using hor), if_neg hsm, if_neg hbp]
    · intro hor
      rw [hunfold, if_pos hor]
  · intro tables pairs
    induction pairs with
    | nil => intro st x hx; simpa using hx
    | cons p rest ih =>
      intro st x hx
      rw [List.foldl_cons]
      exact ih (stitch_step tables st p) x (hstep_mem tables st p x hx)
  · intro tables st N b t hb ht hor
    have hne2 : ¬ ((tablesOnPage tables N).isEmpty ∨
        (tablesOnPage tables (N + 1)).isEmpty) := by
      rw [bottomTableOfPage_nonempty hb, topTableOfPage_nonempty ht]
      simp
    unfold stitch_step
    dsimp only
    rw [if_neg (show ¬ (N + 1 ≠ N + 1) by simp), if_neg hne2]
    simp only [hb]
    rcases hor with hor | hor
    · rw [if_pos hor]
    · by_cases hbp : tableId b ∈ st.1
      · rw [if_pos hbp]
      · rw [if_neg hbp]
        simp only [ht]
        rw [if_pos hor]

/-- A portrait table at the bottom of page 1, reaching the global maximum
bottom. -/
def exTableA : TableInfo :=
  ⟨1, 1, 0, 700, 100, 800, [["a1", "a2"]], 2, "portrait", false, []⟩

/-- A portrait table at the top of page 2, aligned with `exTableA`. -/
def exTableB : TableInfo :=
  ⟨2, 1, 0, 50, 100, 300, [["b1", "b2"]], 2, "portrait", false, []⟩

/-- Witness for C2: the concrete pair satisfies the merge conditions and the
step merges it, concatenating the grids and extending the bbox. -/
theorem merge_cross_page_spec_witness :
    stitch_step [exTableA, exTableB] ([], []) (1, 2) =
      ([tableId exTableA, tableId exTableB], [mergePair 1 exTableA exTableB]) ∧
    (mergePair 1 exTableA exTableB).data = exTableA.data ++ exTableB.data ∧
    (mergePair 1 exTableA exTableB).y0 = exTableA.y0 ∧
    (mergePair 1 exTableA exTableB).y1 = exTableB.y1 := by
  have hmain := merge_cross_page_spec.1 [exTableA, exTableB] ([], []) 1 exTableA exTableB
    rfl rfl (by simp) (by simp)
  refine ⟨hmain.1.mpr ⟨rfl, ?_⟩, hmain.2.2.2.1, hmain.2.2.2.2.1, hmain.2.2.2.2.2.1⟩
  refine ⟨rfl, by norm_num [exTableA, exTableB], by norm_num [exTableA, exTableB],
    Or.inl ?_⟩
  norm_num [exTableA, exTableB, max_global_y1, pyMax, List.filter, max_def]

end PdfTables
